import Mathlib

/-!
Shallow embedding of the tuifeed repository (src/tuifeed.py and src/rspy.py):
the fetch–retry–cache–merge pipeline.  Instants (`datetime`) are modelled as
`Int` seconds since the epoch; `timedelta` comparison `now - t <= age_limit`
becomes integer comparison.  Python dict articles become the `Article`
structure holding the keys the pipeline reads ('feed', 'title', 'link',
'timestamp'); the optional 'summary' key of tuifeed articles is never read by
merge or cache code and is omitted.
-/

/-- One article dict as built by the fetchers: keys 'feed', 'title', 'link',
'timestamp' (tuifeed.py lines 135-141, rspy.py lines 95-100). -/
structure Article where
  feed : String
  title : String
  link : String
  timestamp : Int
deriving DecidableEq

/-- Constant `MAX_AGE_HOURS = 24` (tuifeed.py line 14, rspy.py line 12). -/
def MAX_AGE_HOURS : Nat := 24

/-- Constant `RETRY_ATTEMPTS = 2` (tuifeed.py line 17). -/
def RETRY_ATTEMPTS : Nat := 2

/-- The age limit `timedelta(hours=MAX_AGE_HOURS)` in seconds. -/
def ageLimit : Int := (MAX_AGE_HOURS : Int) * 3600

/-- The merge loop body shared by both scripts: walk a list keeping each
article whose link is not in `seen` and is not the placeholder "No link",
threading the `seen_links` set (modelled as a list of strings).  Mirrors
tuifeed.py lines 331-334 and rspy.py lines 155-158 (and rspy.py lines
161-164 for the cached pass).  Returns the final seen set and the kept
articles in order. -/
def addArticles (seen : List String) : List Article → List String × List Article
  | [] => (seen, [])
  | a :: rest =>
    if a.link ∉ seen ∧ a.link ≠ "No link" then
      let p := addArticles (a.link :: seen) rest
      (p.1, a :: p.2)
    else
      addArticles seen rest

/-- The cached-articles pass of tuifeed.py main (lines 337-344): same as
`addArticles` but additionally requires `a['feed'] in current_feed_names`. -/
def addCachedTui (names : List String) (seen : List String) :
    List Article → List String × List Article
  | [] => (seen, [])
  | a :: rest =>
    if a.link ∉ seen ∧ a.link ≠ "No link" ∧ a.feed ∈ names then
      let p := addCachedTui names (a.link :: seen) rest
      (p.1, a :: p.2)
    else
      addCachedTui names seen rest

namespace Rspy

/-- The merge step of rspy.py main (lines 151-164): fresh articles first,
then cached ones, deduplicating by link against an initially empty
`seen_links` set. -/
def merge (fresh cached : List Article) : List Article :=
  let p := addArticles [] fresh
  let q := addArticles p.1 cached
  p.2 ++ q.2

end Rspy

namespace Tuifeed

/-- The merge step of tuifeed.py main (lines 327-344): like rspy's, but the
cached pass also requires the article's feed to be in
`current_feed_names`. -/
def merge (names : List String) (fresh cached : List Article) : List Article :=
  let p := addArticles [] fresh
  let q := addCachedTui names p.1 cached
  p.2 ++ q.2

end Tuifeed

/-- The persisted cache file content: `{"timestamp": ..., "articles": ...}`
(tuifeed.py lines 183-186, rspy.py lines 46-49). -/
structure CacheData where
  timestamp : Int
  articles : List Article
deriving DecidableEq

/-- Function `write_cache(articles)` (tuifeed.py lines 180-191): the snapshot written
to disk. -/
def writeCache (now : Int) (articles : List Article) : CacheData :=
  { timestamp := now, articles := articles }

namespace Tuifeed

/-- Function `read_cache(current_feed_names)` of tuifeed.py (lines 157-178): `none`
models a missing (or, via the exception handler, unreadable) cache file.
Keeps a cached article iff `now - t <= age_limit` and its feed is among the
configured names; offending articles are silently dropped (the list
comprehension cannot raise). -/
def readCache (names : List String) (now : Int) :
    Option CacheData → List Article
  | none => []
  | some cd =>
    cd.articles.filter fun a =>
      decide (now - a.timestamp ≤ ageLimit) && decide (a.feed ∈ names)

/-- The cache file state at the end of tuifeed.py main (lines 346-355):
`write_cache(merged_articles)` runs unconditionally, then the merged list is
written again when non-empty, while an empty merge removes the cache file.
The net persisted state is `none` (file deleted) for an empty merge and the
written snapshot otherwise. -/
def finalCacheState (now : Int) (merged : List Article) : Option CacheData :=
  let afterWrite := some (writeCache now merged)
  if merged.isEmpty then none else afterWrite

end Tuifeed

namespace Rspy

/-- Function `read_cache()` of rspy.py (lines 19-40): filters by freshness only; it
takes no feed-name set. -/
def readCache (now : Int) : Option CacheData → List Article
  | none => []
  | some cd =>
    cd.articles.filter fun a => decide (now - a.timestamp ≤ ageLimit)

/-- The cache file state at the end of rspy.py main (lines 166-171):
`write_cache(merged_articles)` runs unconditionally and nothing is ever
deleted, so even an empty merge persists a `{articles: []}` snapshot. -/
def finalCacheState (now : Int) (merged : List Article) : Option CacheData :=
  some (writeCache now merged)

end Rspy

/-! ## The fetch path -/

/-- A feed entry from the configuration: `feed.get('name')` /
`feed.get('url')` may be absent (`none`).  `if not name or not url` also
rejects empty strings (Python falsiness). -/
structure Feed where
  name : Option String
  url : Option String
deriving DecidableEq

/-- Python falsiness of `feed.get(...)`: `None` or the empty string. -/
def falsy : Option String → Bool
  | none => true
  | some s => s = ""

/-- One entry of the `feed_etags.json` store: the dict built at tuifeed.py
lines 77-81 from the response's 'etag' and 'last-modified' headers. -/
structure ValidatorRecord where
  etag : Option String
  lastModified : Option String
deriving DecidableEq

/-- Test `if new_cache_data:` — the dict is empty iff neither header was
present. -/
def recordEmpty (v : ValidatorRecord) : Bool :=
  v.etag.isNone && v.lastModified.isNone

/-- The ETag store (`etag_cache`): a string-keyed dict, modelled as an
association list. -/
def EtagStore : Type := List (String × ValidatorRecord)

instance : DecidableEq EtagStore := by
  unfold EtagStore
  infer_instance

/-- Dict lookup `etag_cache.get(key)`. -/
def storeLookup : EtagStore → String → Option ValidatorRecord
  | [], _ => none
  | (k, v) :: rest, key => if k = key then some v else storeLookup rest key

/-- Dict assignment `etag_cache[key] = value`: overwrite the existing
binding or append a new one. -/
def storeInsert : EtagStore → String → ValidatorRecord → EtagStore
  | [], key, v => [(key, v)]
  | (k, w) :: rest, key, v =>
    if k = key then (key, v) :: rest else (k, w) :: storeInsert rest key v

/-- A parsed feed entry, as read through `entry.get(...)` /
`getattr(entry, ...)`.  The `published`/`updated` fields stand for
`published_parsed`/`updated_parsed` after the
`datetime.fromtimestamp(time.mktime(...))` conversion; `none` covers the
field being absent, falsy, or the conversion raising
(ValueError/OverflowError), all of which make the code move on. -/
structure Entry where
  title : Option String
  link : Option String
  published : Option Int
  updated : Option Int
deriving DecidableEq

/-- Outcome of the body-parsing step.  `exn` is `feedparser.parse` raising;
`ok bozo entries` is a parse that returned a document, with the parser's
malformation flag (`parsed_feed.bozo`) and its entry list. -/
inductive ParseOutcome where
  | exn : ParseOutcome
  | ok (bozo : Bool) (entries : List Entry) : ParseOutcome
deriving DecidableEq

/-- Simplified model of `urllib.parse.urljoin(url, link)`: no claim depends
on URL arithmetic, only on the fact that a relative link is resolved against
the source's URL; all concrete inputs below use absolute links, which the
code leaves untouched before this call. -/
def urljoin (base rel : String) : String := base ++ rel

namespace Tuifeed

/-- The date-field loop of tuifeed.py lines 112-124: try 'published_parsed'
then 'updated_parsed'; an entry with neither usable is dropped. -/
def entryPublished (e : Entry) : Option Int :=
  match e.published with
  | some t => some t
  | none => e.updated

/-- The per-entry body of tuifeed.py lines 110-141: pick a publication
instant, age-check it, resolve a relative link against the feed url, and
build the article dict.  `none` means the entry is skipped. -/
def entryToArticle (name url : String) (now : Int) (e : Entry) : Option Article :=
  match entryPublished e with
  | none => none
  | some t =>
    if now - t > ageLimit then none
    else
      let link0 := e.link.getD ""
      let link :=
        if link0 ≠ "" ∧ ¬(link0.startsWith "http://" ∨ link0.startsWith "https://") then
          urljoin url link0
        else link0
      some { feed := name
             title := (e.title.getD "No title").trim
             link := link
             timestamp := t }

/-- The post-loop part of `fetch_feed_with_retry` (tuifeed.py lines
94-143): a parse exception yields no articles; otherwise every entry is
processed — the `bozo` flag is only logged (line 102-103), it does not
discard the document. -/
def parseStage (name url : String) (now : Int) : ParseOutcome → List Article
  | .exn => []
  | .ok _bozo entries => entries.filterMap (entryToArticle name url now)

/-- Outcome of one `session.get` attempt inside the retry loop.  `reqErr`
covers every `requests.exceptions.RequestException`, including the HTTPError
raised by `response.raise_for_status()` on a non-2xx status; `notModified`
is status 304; `success` carries the response's validator headers and what
`feedparser.parse` will make of its body. -/
inductive Attempt where
  | reqErr : Attempt
  | notModified : Attempt
  | success (etag lastModified : Option String) (body : ParseOutcome) : Attempt
deriving DecidableEq

/-- How the retry loop of tuifeed.py lines 64-92 exits. -/
inductive LoopExit where
  /-- a `return [], etag_cache` from inside the loop (304, or the last
  attempt failing). -/
  | early : LoopExit
  /-- the `for` loop ran out without `break` or `return`; only possible for
  `RETRY_ATTEMPTS = 0`, where the Python code would then crash on the
  undefined `response`. -/
  | fell : LoopExit
  /-- the `break` after a successful response, carrying the body to parse. -/
  | got (body : ParseOutcome) : LoopExit
deriving DecidableEq

/-- Result of the retry loop: how it exited, the etag store at that point,
and how many `session.get` calls were made. -/
structure LoopOut where
  exit : LoopExit
  store : EtagStore
  requests : Nat
deriving DecidableEq

/-- Count one more issued request. -/
def LoopOut.bump (l : LoopOut) : LoopOut :=
  { l with requests := l.requests + 1 }

/-- The loop `for attempt in range(RETRY_ATTEMPTS): ...` (tuifeed.py lines 64-92),
with `remaining` the number of loop iterations still to run and `idx` the
current attempt index, so that `idx = RETRY_ATTEMPTS - remaining` and
`attempt == RETRY_ATTEMPTS - 1` is `remaining = 1`.  A 304 returns with the
store unchanged; a success stores the response's validator headers (when
any) under `key` and breaks; a request error returns on the last attempt
and otherwise sleeps and retries. -/
def fetchLoop (attempts : Nat → Attempt) (key : String) :
    EtagStore → Nat → Nat → LoopOut
  | store, 0, _ => { exit := .fell, store := store, requests := 0 }
  | store, remaining + 1, idx =>
    match attempts idx with
    | .notModified => { exit := .early, store := store, requests := 1 }
    | .success e lm body =>
      let v : ValidatorRecord := { etag := e, lastModified := lm }
      let store2 := if recordEmpty v then store else storeInsert store key v
      { exit := .got body, store := store2, requests := 1 }
    | .reqErr =>
      if remaining = 0 then { exit := .early, store := store, requests := 1 }
      else (fetchLoop attempts key store remaining (idx + 1)).bump

/-- What `fetch_feed_with_retry` returns: the article list, the etag store
(mutated in place and returned by the Python code), plus the number of
request attempts it issued (for the retry-bound property). -/
structure FetchResult where
  articles : List Article
  store : EtagStore
  requests : Nat
deriving DecidableEq

/-- Function `fetch_feed_with_retry(feed, etag_cache, session)` (tuifeed.py lines
41-144).  The network and the parser are modelled by `attempts`, giving the
outcome of each successive `session.get`; the conditional-request headers
built from the cached validator only influence the server's response, which
`attempts` already encodes.  A feed missing its name or url (or with either
empty) is rejected before any request. -/
def fetchFeedWithRetry (feed : Feed) (etagCache : EtagStore)
    (attempts : Nat → Attempt) (now : Int) : FetchResult :=
  if falsy feed.name || falsy feed.url then
    { articles := [], store := etagCache, requests := 0 }
  else
    let name := feed.name.getD ""
    let url := feed.url.getD ""
    let key := name ++ ":" ++ url
    let l := fetchLoop attempts key etagCache RETRY_ATTEMPTS 0
    match l.exit with
    | .got body =>
      { articles := parseStage name url now body, store := l.store,
        requests := l.requests }
    | _ => { articles := [], store := l.store, requests := l.requests }

end Tuifeed

namespace Rspy

/-- The per-entry body of rspy.py lines 84-100: only 'published_parsed' is
consulted, the title is not stripped, and a missing link becomes the
placeholder "No link" with no URL resolution. -/
def entryToArticle (name : String) (now : Int) (e : Entry) : Option Article :=
  match e.published with
  | none => none
  | some t =>
    if now - t > ageLimit then none
    else
      some { feed := name
             title := e.title.getD "No title"
             link := e.link.getD "No link"
             timestamp := t }

/-- The parse handling of rspy.py `fetch_feed` (lines 67-102) after a
successful HTTP response: an exception anywhere in the try block yields
no articles, and `if parsed_feed.bozo: return []` discards any malformed
document before entries are processed. -/
def processParsed (name : String) (now : Int) : ParseOutcome → List Article
  | .exn => []
  | .ok bozo entries =>
    if bozo then [] else entries.filterMap (entryToArticle name now)

end Rspy

/-! ## Spec-side merge description and merge lemmas -/

/-- The merge output as the spec's Merge Engine contract words it (for the
refinement claims): a single dedup-by-link walk starting from a given set of
already-emitted links, keeping an article iff its link has not occurred
earlier. -/
def specDedupPass (seen : List String) : List Article → List Article
  | [] => []
  | a :: rest =>
    if a.link ∈ seen then specDedupPass seen rest
    else a :: specDedupPass (a.link :: seen) rest

/-- The merge output exactly as claim C1 words it: all fresh articles in
arrival order, then those cached articles whose link did not already occur
earlier in the output. -/
def specMergeClaim (fresh cached : List Article) : List Article :=
  fresh ++ specDedupPass (fresh.map Article.link) cached

/-- The article list a persisted cache state holds (empty when the file is
absent). -/
def cacheArticles : Option CacheData → List Article
  | none => []
  | some cd => cd.articles

theorem addArticles_append (seen : List String) (xs ys : List Article) :
    addArticles seen (xs ++ ys) =
      ((addArticles (addArticles seen xs).1 ys).1,
        (addArticles seen xs).2 ++ (addArticles (addArticles seen xs).1 ys).2) := by
  induction xs generalizing seen with
  | nil => simp [addArticles]
  | cons a rest ih =>
    simp only [List.cons_append, addArticles]
    by_cases h : a.link ∉ seen ∧ a.link ≠ "No link"
    · simp only [if_pos h, List.append_eq, ih, List.cons_append]
    · simp only [if_neg h, List.append_eq, ih]

theorem addArticles_eq_specDedupPass (xs : List Article) :
    ∀ seen : List String, (∀ a ∈ xs, a.link ≠ "No link") →
      (addArticles seen xs).2 = specDedupPass seen xs := by
  induction xs with
  | nil => intro seen _; simp [addArticles, specDedupPass]
  | cons a rest ih =>
    intro seen h
    have ha : a.link ≠ "No link" := h a (by simp)
    have hrest : ∀ b ∈ rest, b.link ≠ "No link" := fun b hb => h b (by simp [hb])
    by_cases hm : a.link ∈ seen
    · simp [addArticles, specDedupPass, hm, ih seen hrest]
    · simp [addArticles, specDedupPass, hm, ha, ih (a.link :: seen) hrest]

theorem addArticles_links_nodup (xs : List Article) :
    ∀ seen : List String,
      ((addArticles seen xs).2.map Article.link).Nodup ∧
        ∀ l ∈ (addArticles seen xs).2.map Article.link, l ∉ seen := by
  induction xs with
  | nil => intro seen; simp [addArticles]
  | cons a rest ih =>
    intro seen
    by_cases h : a.link ∉ seen ∧ a.link ≠ "No link"
    · have ihh := ih (a.link :: seen)
      constructor
      · simp only [addArticles, if_pos h, List.map_cons, List.nodup_cons]
        refine ⟨fun hmem => ?_, ihh.1⟩
        exact (ihh.2 a.link hmem) (by simp)
      · intro l hl
        simp only [addArticles, if_pos h, List.map_cons, List.mem_cons] at hl
        rcases hl with rfl | hl
        · exact h.1
        · exact fun hs => (ihh.2 l hl) (by simp [hs])
    · simpa [addArticles, if_neg h] using ih seen

theorem addCachedTui_eq_addArticles (names : List String) (xs : List Article) :
    ∀ seen : List String, (∀ a ∈ xs, a.feed ∈ names) →
      addCachedTui names seen xs = addArticles seen xs := by
  induction xs with
  | nil => intro seen _; simp [addArticles, addCachedTui]
  | cons a rest ih =>
    intro seen h
    have ha : a.feed ∈ names := h a (by simp)
    have hrest : ∀ b ∈ rest, b.feed ∈ names := fun b hb => h b (by simp [hb])
    by_cases hm : a.link ∉ seen ∧ a.link ≠ "No link"
    · simp [addCachedTui, addArticles, hm.1, hm.2, ha, ih _ hrest]
    · rw [Classical.not_and_iff_or_not_not] at hm
      rcases hm with hm | hm
      · rw [Classical.not_not] at hm
        simp [addCachedTui, addArticles, hm, ih _ hrest]
      · simp [addCachedTui, addArticles, hm, ih _ hrest]

theorem addArticles_of_fresh (xs : List Article) :
    ∀ seen : List String,
      (∀ a ∈ xs, a.link ∉ seen ∧ a.link ≠ "No link") →
      (xs.map Article.link).Nodup →
      (addArticles seen xs).2 = xs ∧
        ∀ l, l ∈ (addArticles seen xs).1 ↔ l ∈ xs.map Article.link ∨ l ∈ seen := by
  induction xs with
  | nil => intro seen _ _; simp [addArticles]
  | cons a rest ih =>
    intro seen h hnd
    have ha := h a (by simp)
    have hnd2 : (rest.map Article.link).Nodup := (List.nodup_cons.mp hnd).2
    have hna : a.link ∉ rest.map Article.link := (List.nodup_cons.mp hnd).1
    have hrest : ∀ b ∈ rest, b.link ∉ a.link :: seen ∧ b.link ≠ "No link" := by
      intro b hb
      refine ⟨?_, (h b (by simp [hb])).2⟩
      intro hmem
      rcases List.mem_cons.mp hmem with heq | hmem2
      · exact hna (heq ▸ List.mem_map_of_mem Article.link hb)
      · exact (h b (by simp [hb])).1 hmem2
    have ihh := ih (a.link :: seen) hrest hnd2
    constructor
    · simp only [addArticles, if_pos ha, ihh.1]
    · intro l
      simp only [addArticles, if_pos ha]
      rw [ihh.2 l]
      simp only [List.map_cons, List.mem_cons]
      tauto

theorem addArticles_all_seen (xs : List Article) :
    ∀ seen : List String, (∀ a ∈ xs, a.link ∈ seen) →
      addArticles seen xs = (seen, []) := by
  induction xs with
  | nil => intro seen _; simp [addArticles]
  | cons a rest ih =>
    intro seen h
    have ha : ¬(a.link ∉ seen ∧ a.link ≠ "No link") := by
      intro hc; exact hc.1 (h a (by simp))
    simp only [addArticles, if_neg ha]
    exact ih seen fun b hb => h b (by simp [hb])

theorem addCachedTui_all_seen (names : List String) (xs : List Article) :
    ∀ seen : List String, (∀ a ∈ xs, a.link ∈ seen) →
      addCachedTui names seen xs = (seen, []) := by
  induction xs with
  | nil => intro seen _; simp [addCachedTui]
  | cons a rest ih =>
    intro seen h
    have ha : ¬(a.link ∉ seen ∧ a.link ≠ "No link" ∧ a.feed ∈ names) := by
      intro hc; exact hc.1 (h a (by simp))
    simp only [addCachedTui, if_neg ha]
    exact ih seen fun b hb => h b (by simp [hb])

theorem addArticles_no_placeholder (xs : List Article) :
    ∀ seen : List String, ∀ a ∈ (addArticles seen xs).2, a.link ≠ "No link" := by
  induction xs with
  | nil => intro seen a hmem; simp [addArticles] at hmem
  | cons b rest ih =>
    intro seen a hmem
    by_cases h : b.link ∉ seen ∧ b.link ≠ "No link"
    · simp only [addArticles, if_pos h, List.mem_cons] at hmem
      rcases hmem with rfl | hmem
      · exact h.2
      · exact ih (b.link :: seen) a hmem
    · simp only [addArticles, if_neg h] at hmem
      exact ih seen a hmem

theorem addCachedTui_no_placeholder (names : List String) (xs : List Article) :
    ∀ seen : List String, ∀ a ∈ (addCachedTui names seen xs).2, a.link ≠ "No link" := by
  induction xs with
  | nil => intro seen a hmem; simp [addCachedTui] at hmem
  | cons b rest ih =>
    intro seen a hmem
    by_cases h : b.link ∉ seen ∧ b.link ≠ "No link" ∧ b.feed ∈ names
    · simp only [addCachedTui, if_pos h, List.mem_cons] at hmem
      rcases hmem with rfl | hmem
      · exact h.2.1
      · exact ih (b.link :: seen) a hmem
    · simp only [addCachedTui, if_neg h] at hmem
      exact ih seen a hmem

/-! ## Claim theorems: merge (C1, C3, C9) -/

/-- C1 counterexample: when the fresh list itself repeats a link (both
links valid: non-empty and not "No link"), the code's merge keeps only the
first fresh occurrence, while the claim's description ("all fresh articles
in their arrival order") keeps both — so the claimed equality fails. -/
theorem c1_counterexample :
    (([⟨"A", "t1", "http://x", 0⟩, ⟨"A", "t2", "http://x", 0⟩] : List Article).all
        fun a => (a.link != "") && (a.link != "No link")) = true
    ∧ Rspy.merge [⟨"A", "t1", "http://x", 0⟩, ⟨"A", "t2", "http://x", 0⟩] [] ≠
        specMergeClaim [⟨"A", "t1", "http://x", 0⟩, ⟨"A", "t2", "http://x", 0⟩] [] := by
  decide

/-- C1 (amended): for fresh and cached lists whose links are all non-empty
and not "No link", the merge output is the single first-seen dedup-by-link
pass over fresh followed by cached (so fresh articles keep arrival order,
a cached article is skipped iff its link occurred earlier in the output,
and when a link occurs both fresh and cached the fresh article — with its
title — is the one kept); the output's links are pairwise distinct; and
tuifeed's merge agrees with rspy's whenever every cached article's feed is
still configured. -/
theorem c1_merge_amended (names : List String) (fresh cached : List Article)
    (hf : ∀ a ∈ fresh, a.link ≠ "" ∧ a.link ≠ "No link")
    (hc : ∀ a ∈ cached, a.link ≠ "" ∧ a.link ≠ "No link") :
    Rspy.merge fresh cached = specDedupPass [] (fresh ++ cached)
    ∧ ((Rspy.merge fresh cached).map Article.link).Nodup
    ∧ ((∀ a ∈ cached, a.feed ∈ names) →
        Tuifeed.merge names fresh cached = Rspy.merge fresh cached) := by
  have hall : ∀ a ∈ fresh ++ cached, a.link ≠ "No link" := by
    intro a ha
    rcases List.mem_append.mp ha with h | h
    · exact (hf a h).2
    · exact (hc a h).2
  have hseconds : Rspy.merge fresh cached = (addArticles [] (fresh ++ cached)).2 := by
    simp only [Rspy.merge, addArticles_append]
  refine ⟨?_, ?_, ?_⟩
  · rw [hseconds, addArticles_eq_specDedupPass (fresh ++ cached) [] hall]
  · rw [hseconds]
    exact (addArticles_links_nodup (fresh ++ cached) []).1
  · intro hfeed
    simp only [Tuifeed.merge, Rspy.merge,
      addCachedTui_eq_addArticles names cached _ hfeed]

/-- C1 witness: the amended statement evaluated at one fresh and one cached
article with distinct valid links. -/
theorem c1_merge_amended_witness :
    Rspy.merge [⟨"A", "t1", "http://x", 0⟩] [⟨"B", "t2", "http://y", 5⟩]
      = specDedupPass [] ([⟨"A", "t1", "http://x", 0⟩] ++ [⟨"B", "t2", "http://y", 5⟩])
    ∧ ((Rspy.merge [⟨"A", "t1", "http://x", 0⟩] [⟨"B", "t2", "http://y", 5⟩]).map
        Article.link).Nodup
    ∧ Tuifeed.merge ["A", "B"] [⟨"A", "t1", "http://x", 0⟩] [⟨"B", "t2", "http://y", 5⟩]
        = Rspy.merge [⟨"A", "t1", "http://x", 0⟩] [⟨"B", "t2", "http://y", 5⟩] := by
  have h := c1_merge_amended ["A", "B"] [⟨"A", "t1", "http://x", 0⟩]
    [⟨"B", "t2", "http://y", 5⟩] (by decide) (by decide)
  exact ⟨h.1, h.2.1, h.2.2 (by decide)⟩

/-- C3 counterexample: an article whose link is the empty string "" passes
the merge's only link filter (`a['link'] != 'No link'`), appears in the
merged output of both scripts, and is persisted in the cache snapshot —
refuting "no article with link \x22\x22 ever appears". -/
theorem c3_counterexample :
    Rspy.merge [⟨"A", "t", "", 0⟩] [] = [⟨"A", "t", "", 0⟩]
    ∧ Tuifeed.merge ["A"] [⟨"A", "t", "", 0⟩] [] = [⟨"A", "t", "", 0⟩]
    ∧ cacheArticles (Tuifeed.finalCacheState 0
        (Tuifeed.merge ["A"] [⟨"A", "t", "", 0⟩] [])) = [⟨"A", "t", "", 0⟩] := by
  decide

/-- C3 (amended): no article whose link is the placeholder "No link" ever
appears in the merged output of either script, nor in the cache snapshot
persisted at the end of the run; articles with an empty-string link are NOT
excluded (see the counterexample). -/
theorem c3_no_placeholder_link (names : List String) (fresh cached : List Article)
    (now : Int) :
    ((Tuifeed.merge names fresh cached).all fun a => a.link != "No link") = true
    ∧ ((Rspy.merge fresh cached).all fun a => a.link != "No link") = true
    ∧ ((cacheArticles (Tuifeed.finalCacheState now (Tuifeed.merge names fresh cached))).all
        fun a => a.link != "No link") = true
    ∧ ((cacheArticles (Rspy.finalCacheState now (Rspy.merge fresh cached))).all
        fun a => a.link != "No link") = true := by
  have hT : ((Tuifeed.merge names fresh cached).all fun a => a.link != "No link") = true := by
    rw [List.all_eq_true]
    intro a ha
    simp only [Tuifeed.merge] at ha
    rcases List.mem_append.mp ha with h | h
    · simpa using addArticles_no_placeholder fresh [] a h
    · simpa using addCachedTui_no_placeholder names cached _ a h
  have hR : ((Rspy.merge fresh cached).all fun a => a.link != "No link") = true := by
    rw [List.all_eq_true]
    intro a ha
    simp only [Rspy.merge] at ha
    rcases List.mem_append.mp ha with h | h
    · simpa using addArticles_no_placeholder fresh [] a h
    · simpa using addArticles_no_placeholder cached _ a h
  refine ⟨hT, hR, ?_, ?_⟩
  · by_cases hm : (Tuifeed.merge names fresh cached).isEmpty
    · simp [Tuifeed.finalCacheState, hm, cacheArticles]
    · simpa [Tuifeed.finalCacheState, hm, cacheArticles, writeCache] using hT
  · simpa [Rspy.finalCacheState, cacheArticles, writeCache] using hR

/-- C9 counterexample: merging a one-element list with itself is not the
identity when the article's link is the placeholder "No link": the merge
drops it entirely. -/
theorem c9_counterexample :
    Rspy.merge [⟨"A", "t", "No link", 0⟩] [⟨"A", "t", "No link", 0⟩] ≠
      [⟨"A", "t", "No link", 0⟩] := by
  decide

/-- C9 (amended): merging a list with itself (as both fresh and cached
arguments) yields the list itself, order preserved and no duplicates
introduced, provided its links are pairwise distinct and none is the
placeholder "No link" — and this holds for both scripts' merges. -/
theorem c9_merge_idempotent_amended (names : List String) (L : List Article)
    (h1 : (L.map Article.link).Nodup)
    (h2 : ∀ a ∈ L, a.link ≠ "No link") :
    Rspy.merge L L = L ∧ Tuifeed.merge names L L = L := by
  have hfresh : ∀ a ∈ L, a.link ∉ ([] : List String) ∧ a.link ≠ "No link" :=
    fun a ha => ⟨by simp, h2 a ha⟩
  have hp := addArticles_of_fresh L [] hfresh h1
  have hseen : ∀ a ∈ L, a.link ∈ (addArticles [] L).1 :=
    fun a ha => (hp.2 a.link).mpr (Or.inl (List.mem_map_of_mem Article.link ha))
  constructor
  · simp only [Rspy.merge, addArticles_all_seen L _ hseen, hp.1]
    simp
  · simp only [Tuifeed.merge, addCachedTui_all_seen names L _ hseen, hp.1]
    simp

/-- C9 witness: the amended idempotence at a concrete one-article list with
a valid link. -/
theorem c9_merge_idempotent_amended_witness :
    Rspy.merge [⟨"A", "t", "http://x", 0⟩] [⟨"A", "t", "http://x", 0⟩]
      = [⟨"A", "t", "http://x", 0⟩]
    ∧ Tuifeed.merge ["A"] [⟨"A", "t", "http://x", 0⟩] [⟨"A", "t", "http://x", 0⟩]
      = [⟨"A", "t", "http://x", 0⟩] :=
  c9_merge_idempotent_amended ["A"] [⟨"A", "t", "http://x", 0⟩] (by decide) (by decide)

/-! ## Claim theorems: cache load and persistence (C4, C5, C8) -/

theorem mem_readCache_tui (names : List String) (now : Int) (cd : CacheData)
    (a : Article) :
    a ∈ Tuifeed.readCache names now (some cd) ↔
      a ∈ cd.articles ∧ now - a.timestamp ≤ ageLimit ∧ a.feed ∈ names := by
  simp [Tuifeed.readCache, List.mem_filter, and_assoc]

/-- C4: tuifeed's cache load, given the configured source names, returns
exactly the persisted articles whose feed is in that set and whose age is
within the freshness window — membership characterization plus
order/multiplicity preservation (the result is a sublist of the persisted
articles), and a missing or unreadable file loads as the empty list; the
filter is total, so nothing is raised for a dropped article.  (rspy's
`read_cache()` takes no name set and filters by freshness only; the claim's
"given the set of currently configured source names" load is tuifeed's.) -/
theorem c4_read_cache_filter (names : List String) (now : Int) (cd : CacheData)
    (a : Article) :
    (a ∈ Tuifeed.readCache names now (some cd) ↔
      a ∈ cd.articles ∧ now - a.timestamp ≤ ageLimit ∧ a.feed ∈ names)
    ∧ (Tuifeed.readCache names now (some cd)).Sublist cd.articles
    ∧ Tuifeed.readCache names now none = [] := by
  exact ⟨mem_readCache_tui names now cd a, List.filter_sublist cd.articles, rfl⟩

/-- C5 counterexample: rspy's run never deletes the cache file — with an
empty merged list it persists the snapshot `{articles: []}` (the very state
the claim says is never observed) instead of removing the file. -/
theorem c5_counterexample :
    Rspy.finalCacheState 0 [] = some (writeCache 0 [])
    ∧ Rspy.finalCacheState 0 [] ≠ none := by
  decide

/-- C5 (amended): in tuifeed, a run whose merged output is empty ends with
the cache file deleted (state `none`), and a subsequent cache load for any
source set returns the empty list; in rspy the empty snapshot
`{articles: []}` is persisted instead (see the counterexample), though a
subsequent rspy load of it still returns the empty list. -/
theorem c5_empty_merge_cache_amended (now now2 : Int) (names : List String) :
    Tuifeed.finalCacheState now [] = none
    ∧ Tuifeed.readCache names now2 (Tuifeed.finalCacheState now []) = []
    ∧ Rspy.readCache now2 (Rspy.finalCacheState now []) = [] := by
  refine ⟨rfl, rfl, ?_⟩
  simp [Rspy.readCache, Rspy.finalCacheState, writeCache]

/-- C8: a persisted article whose source is configured is included in
tuifeed's cache load at `now` iff `now - t ≤ window` (the window being 24
hours); the boundary `now - t = window` is inclusive. -/
theorem c8_freshness_boundary (names : List String) (now : Int) (cd : CacheData)
    (a : Article) (ha : a ∈ cd.articles) (hf : a.feed ∈ names) :
    (a ∈ Tuifeed.readCache names now (some cd) ↔ now - a.timestamp ≤ ageLimit)
    ∧ (now - a.timestamp = ageLimit → a ∈ Tuifeed.readCache names now (some cd)) := by
  constructor
  · rw [mem_readCache_tui names now cd a]
    exact ⟨fun h => h.2.1, fun h => ⟨ha, h, hf⟩⟩
  · intro heq
    exact (mem_readCache_tui names now cd a).mpr ⟨ha, le_of_eq heq, hf⟩

/-- C8 witness: an article exactly 24 hours old (timestamp 0, loaded at
86400 s) with its feed configured is kept by the load. -/
theorem c8_freshness_boundary_witness :
    ((⟨"A", "t", "http://x", 0⟩ : Article) ∈
        Tuifeed.readCache ["A"] 86400 (some ⟨0, [⟨"A", "t", "http://x", 0⟩]⟩) ↔
      (86400 : Int) - (0 : Int) ≤ ageLimit)
    ∧ ((86400 : Int) - (0 : Int) = ageLimit →
        (⟨"A", "t", "http://x", 0⟩ : Article) ∈
          Tuifeed.readCache ["A"] 86400 (some ⟨0, [⟨"A", "t", "http://x", 0⟩]⟩)) :=
  c8_freshness_boundary ["A"] 86400 ⟨0, [⟨"A", "t", "http://x", 0⟩]⟩
    ⟨"A", "t", "http://x", 0⟩ (by decide) (by decide)

/-! ## Retry-loop lemmas -/

theorem fetchLoop_all_err (attempts : Nat → Tuifeed.Attempt) (key : String) :
    ∀ r idx store, 0 < r → (∀ i, attempts i = .reqErr) →
      Tuifeed.fetchLoop attempts key store r idx =
        { exit := .early, store := store, requests := r } := by
  intro r
  induction r with
  | zero => intro idx store h; simp at h
  | succ r ih =>
    intro idx store _ h
    by_cases hr : r = 0
    · subst hr
      simp [Tuifeed.fetchLoop, h idx]
    · have h0 : 0 < r := Nat.pos_of_ne_zero hr
      simp [Tuifeed.fetchLoop, h idx, hr, ih (idx + 1) store h0 h,
        Tuifeed.LoopOut.bump]

theorem fetchLoop_not_modified (attempts : Nat → Tuifeed.Attempt) (key : String) :
    ∀ r j idx store, j < r →
      (∀ i, i < j → attempts (idx + i) = .reqErr) →
      attempts (idx + j) = .notModified →
      Tuifeed.fetchLoop attempts key store r idx =
        { exit := .early, store := store, requests := j + 1 } := by
  intro r
  induction r with
  | zero => intro j idx store hj; exact absurd hj (Nat.not_lt_zero j)
  | succ r ih =>
    intro j idx store hj hpre hnm
    cases j with
    | zero =>
      have h0 : attempts idx = .notModified := by simpa using hnm
      simp [Tuifeed.fetchLoop, h0]
    | succ j =>
      have h0 : attempts idx = .reqErr := by
        have := hpre 0 (Nat.succ_pos j)
        simpa using this
      have hr : r ≠ 0 := by omega
      have hpre2 : ∀ i, i < j → attempts (idx + 1 + i) = .reqErr := by
        intro i hi
        have he : idx + 1 + i = idx + (i + 1) := by omega
        rw [he]
        exact hpre (i + 1) (by omega)
      have hnm2 : attempts (idx + 1 + j) = .notModified := by
        have he : idx + 1 + j = idx + (j + 1) := by omega
        rw [he]
        exact hnm
      simp [Tuifeed.fetchLoop, h0, hr,
        ih j (idx + 1) store (by omega) hpre2 hnm2, Tuifeed.LoopOut.bump]

theorem fetchLoop_success (attempts : Nat → Tuifeed.Attempt) (key : String) :
    ∀ r j idx store e lm body, j < r →
      (∀ i, i < j → attempts (idx + i) = .reqErr) →
      attempts (idx + j) = .success e lm body →
      Tuifeed.fetchLoop attempts key store r idx =
        { exit := .got body,
          store := if recordEmpty ⟨e, lm⟩ = true then store
            else storeInsert store key ⟨e, lm⟩,
          requests := j + 1 } := by
  intro r
  induction r with
  | zero => intro j idx store e lm body hj; exact absurd hj (Nat.not_lt_zero j)
  | succ r ih =>
    intro j idx store e lm body hj hpre hsu
    cases j with
    | zero =>
      have h0 : attempts idx = .success e lm body := by simpa using hsu
      by_cases he : recordEmpty ⟨e, lm⟩ = true
      · simp [Tuifeed.fetchLoop, h0, he]
      · simp [Tuifeed.fetchLoop, h0, he]
    | succ j =>
      have h0 : attempts idx = .reqErr := by
        have := hpre 0 (Nat.succ_pos j)
        simpa using this
      have hr : r ≠ 0 := by omega
      have hpre2 : ∀ i, i < j → attempts (idx + 1 + i) = .reqErr := by
        intro i hi
        have he : idx + 1 + i = idx + (i + 1) := by omega
        rw [he]
        exact hpre (i + 1) (by omega)
      have hsu2 : attempts (idx + 1 + j) = .success e lm body := by
        have he : idx + 1 + j = idx + (j + 1) := by omega
        rw [he]
        exact hsu
      simp [Tuifeed.fetchLoop, h0, hr,
        ih j (idx + 1) store e lm body (by omega) hpre2 hsu2, Tuifeed.LoopOut.bump]

theorem fetchLoop_store_cases (attempts : Nat → Tuifeed.Attempt) (key : String) :
    ∀ r idx store,
      (Tuifeed.fetchLoop attempts key store r idx).store = store ∨
        ∃ v, (Tuifeed.fetchLoop attempts key store r idx).store =
          storeInsert store key v := by
  intro r
  induction r with
  | zero => intro idx store; left; rfl
  | succ r ih =>
    intro idx store
    cases hA : attempts idx with
    | reqErr =>
      by_cases hr : r = 0
      · subst hr; left; simp [Tuifeed.fetchLoop, hA]
      · have := ih (idx + 1) store
        simpa [Tuifeed.fetchLoop, hA, hr, Tuifeed.LoopOut.bump] using this
    | notModified => left; simp [Tuifeed.fetchLoop, hA]
    | success e lm body =>
      by_cases he : recordEmpty ⟨e, lm⟩ = true
      · left; simp [Tuifeed.fetchLoop, hA, he]
      · right; exact ⟨⟨e, lm⟩, by simp [Tuifeed.fetchLoop, hA, he]⟩

theorem storeLookup_insert (s : EtagStore) (key : String) (v : ValidatorRecord)
    (k : String) :
    storeLookup (storeInsert s key v) k =
      if k = key then some v else storeLookup s k := by
  induction s with
  | nil =>
    by_cases h : k = key
    · simp [storeInsert, storeLookup, h]
    · have h2 : ¬ key = k := fun hh => h hh.symm
      simp [storeInsert, storeLookup, h, h2]
  | cons p rest ih =>
    obtain ⟨k1, v1⟩ := p
    by_cases h1 : k1 = key
    · subst h1
      by_cases h2 : k1 = k
      · subst h2
        simp [storeInsert, storeLookup]
      · have h2' : ¬ k = k1 := fun hh => h2 hh.symm
        simp [storeInsert, storeLookup, h2, h2']
    · by_cases h2 : k1 = k
      · subst h2
        have h3 : ¬ k1 = key := h1
        have h3' : ¬ key = k1 := fun hh => h1 hh.symm
        simp [storeInsert, storeLookup, h1, h3']
      · simp [storeInsert, storeLookup, h1, h2, ih]

/-! ## Claim theorems: fetch path (C2, C6, C7, C10) -/

/-- C2 counterexample: with a well-formed descriptor and every attempt
failing with a transport error, `fetch_feed_with_retry` issues exactly
`RETRY_ATTEMPTS` = 2 requests (`for attempt in range(RETRY_ATTEMPTS)`), not
the claimed `RETRY_ATTEMPTS + 1` = 3. -/
theorem c2_counterexample :
    (Tuifeed.fetchFeedWithRetry ⟨some "A", some "http://a"⟩ []
        (fun _ => .reqErr) 0).requests = RETRY_ATTEMPTS
    ∧ (Tuifeed.fetchFeedWithRetry ⟨some "A", some "http://a"⟩ []
        (fun _ => .reqErr) 0).requests ≠ RETRY_ATTEMPTS + 1 := by
  decide

/-- C2 (amended): for a descriptor with a (truthy) name and url whose every
attempt fails with a transport-level error, `fetch_feed_with_retry` performs
exactly `RETRY_ATTEMPTS` (= 2) request attempts — one initial attempt plus
one retry — and returns an empty article sequence with the validator store
unchanged. -/
theorem c2_retry_amended (feed : Feed) (cache : EtagStore)
    (attempts : Nat → Tuifeed.Attempt) (now : Int)
    (hn : falsy feed.name = false) (hu : falsy feed.url = false)
    (h : ∀ i, attempts i = .reqErr) :
    Tuifeed.fetchFeedWithRetry feed cache attempts now =
      { articles := [], store := cache, requests := RETRY_ATTEMPTS } := by
  have hl := fetchLoop_all_err attempts
    (feed.name.getD "" ++ ":" ++ feed.url.getD "") RETRY_ATTEMPTS 0 cache
    (by decide) h
  simp [Tuifeed.fetchFeedWithRetry, hn, hu, hl]

/-- C2 witness: the amended retry bound at a concrete feed, store and
all-failing attempt trace. -/
theorem c2_retry_amended_witness :
    Tuifeed.fetchFeedWithRetry ⟨some "A", some "http://a"⟩
        [("k", ⟨some "e", none⟩)] (fun _ => .reqErr) 5 =
      { articles := [], store := [("k", ⟨some "e", none⟩)],
        requests := RETRY_ATTEMPTS } :=
  c2_retry_amended ⟨some "A", some "http://a"⟩ [("k", ⟨some "e", none⟩)]
    (fun _ => .reqErr) 5 (by decide) (by decide) (fun i => rfl)

/-- C6 counterexample: an HTTP success whose body the parser flags as
malformed (`bozo = true`) but from which it salvages one entry does NOT
yield an empty article sequence in tuifeed's `fetch_feed_with_retry`: the
bozo flag is only logged and the entry is still processed. -/
theorem c6_counterexample :
    (Tuifeed.fetchFeedWithRetry ⟨some "A", some "http://a"⟩ []
        (fun _ => .success none none
          (.ok true [⟨some "T", none, some 0, none⟩])) 0).articles ≠ []
    ∧ ((Tuifeed.fetchFeedWithRetry ⟨some "A", some "http://a"⟩ []
        (fun _ => .success none none
          (.ok true [⟨some "T", none, some 0, none⟩])) 0).articles.map
        Article.feed) = ["A"] := by
  constructor
  · decide
  · decide

/-- C6 (amended): in rspy's `fetch_feed` a parser-reported malformation
(`bozo`) yields an empty result, as does a raised exception; in tuifeed's
`fetch_feed_with_retry` only a raised parse exception yields an empty
result, while the `bozo` flag has no effect on the produced articles. -/
theorem c6_parse_failure_amended (name url : String) (now : Int)
    (entries : List Entry) :
    Rspy.processParsed name now (.ok true entries) = []
    ∧ Rspy.processParsed name now .exn = []
    ∧ Tuifeed.parseStage name url now .exn = []
    ∧ Tuifeed.parseStage name url now (.ok true entries)
        = Tuifeed.parseStage name url now (.ok false entries) :=
  ⟨rfl, rfl, rfl, rfl⟩

/-- C7: the validator store returned by `fetch_feed_with_retry` equals its
input whenever the call returns because the descriptor is missing (or has a
falsy) name or url, because every attempt failed with a transport error, or
because an attempt got a 304 not-modified response (after only failed
attempts before it). -/
theorem c7_validator_unchanged (feed : Feed) (cache : EtagStore)
    (attempts : Nat → Tuifeed.Attempt) (now : Int) :
    ((falsy feed.name || falsy feed.url) = true →
        (Tuifeed.fetchFeedWithRetry feed cache attempts now).store = cache)
    ∧ ((∀ i, attempts i = .reqErr) →
        (Tuifeed.fetchFeedWithRetry feed cache attempts now).store = cache)
    ∧ (∀ j, j < RETRY_ATTEMPTS → (∀ i, i < j → attempts i = .reqErr) →
        attempts j = .notModified →
        (Tuifeed.fetchFeedWithRetry feed cache attempts now).store = cache) := by
  refine ⟨?_, ?_, ?_⟩
  · intro h
    simp [Tuifeed.fetchFeedWithRetry, h]
  · intro h
    cases hb : (falsy feed.name || falsy feed.url) with
    | true => simp [Tuifeed.fetchFeedWithRetry, hb]
    | false =>
      have hl := fetchLoop_all_err attempts
        (feed.name.getD "" ++ ":" ++ feed.url.getD "") RETRY_ATTEMPTS 0 cache
        (by decide) h
      simp [Tuifeed.fetchFeedWithRetry, hb, hl]
  · intro j hj hpre hnm
    cases hb : (falsy feed.name || falsy feed.url) with
    | true => simp [Tuifeed.fetchFeedWithRetry, hb]
    | false =>
      have hpre2 : ∀ i, i < j → attempts (0 + i) = .reqErr := by
        intro i hi
        simpa using hpre i hi
      have hnm2 : attempts (0 + j) = .notModified := by simpa using hnm
      have hl := fetchLoop_not_modified attempts
        (feed.name.getD "" ++ ":" ++ feed.url.getD "") RETRY_ATTEMPTS j 0 cache
        hj hpre2 hnm2
      simp [Tuifeed.fetchFeedWithRetry, hb, hl]

/-- C7 witness: the three unchanged-store cases at concrete inputs — a
descriptor with no name, an all-failing trace, and an immediate 304. -/
theorem c7_validator_unchanged_witness :
    (Tuifeed.fetchFeedWithRetry ⟨none, some "http://a"⟩
        [("k", ⟨some "e", none⟩)] (fun _ => .reqErr) 0).store
      = [("k", ⟨some "e", none⟩)]
    ∧ (Tuifeed.fetchFeedWithRetry ⟨some "A", some "http://a"⟩
        [("k", ⟨some "e", none⟩)] (fun _ => .reqErr) 0).store
      = [("k", ⟨some "e", none⟩)]
    ∧ (Tuifeed.fetchFeedWithRetry ⟨some "A", some "http://a"⟩
        [("k", ⟨some "e", none⟩)] (fun _ => .notModified) 0).store
      = [("k", ⟨some "e", none⟩)] :=
  ⟨(c7_validator_unchanged ⟨none, some "http://a"⟩ [("k", ⟨some "e", none⟩)]
      (fun _ => .reqErr) 0).1 (by decide),
   (c7_validator_unchanged ⟨some "A", some "http://a"⟩ [("k", ⟨some "e", none⟩)]
      (fun _ => .reqErr) 0).2.1 (fun i => rfl),
   (c7_validator_unchanged ⟨some "A", some "http://a"⟩ [("k", ⟨some "e", none⟩)]
      (fun _ => .notModified) 0).2.2 0 (by decide)
      (fun i hi => absurd hi (Nat.not_lt_zero i)) rfl⟩

/-- C10: a successful non-304 response carrying neither an ETag nor a
Last-Modified header leaves the validator store exactly as it was (the
stored entry for the feed's key included), and `fetch_feed_with_retry`
never deletes a validator entry: any key present in the input store is
still present in the returned store, for every attempt trace. -/
theorem c10_validator_persistence (feed : Feed) (cache : EtagStore)
    (attempts : Nat → Tuifeed.Attempt) (now : Int) :
    (∀ j body, j < RETRY_ATTEMPTS → (∀ i, i < j → attempts i = .reqErr) →
        attempts j = .success none none body →
        (Tuifeed.fetchFeedWithRetry feed cache attempts now).store = cache)
    ∧ (∀ k, (storeLookup cache k).isSome = true →
        (storeLookup (Tuifeed.fetchFeedWithRetry feed cache attempts now).store
          k).isSome = true) := by
  constructor
  · intro j body hj hpre hsu
    cases hb : (falsy feed.name || falsy feed.url) with
    | true => simp [Tuifeed.fetchFeedWithRetry, hb]
    | false =>
      have hpre2 : ∀ i, i < j → attempts (0 + i) = .reqErr := by
        intro i hi
        simpa using hpre i hi
      have hsu2 : attempts (0 + j) = .success none none body := by simpa using hsu
      have hl := fetchLoop_success attempts
        (feed.name.getD "" ++ ":" ++ feed.url.getD "") RETRY_ATTEMPTS j 0 cache
        none none body hj hpre2 hsu2
      have hre : recordEmpty ⟨none, none⟩ = true := rfl
      simp [Tuifeed.fetchFeedWithRetry, hb, hl, hre]
  · intro k hk
    cases hb : (falsy feed.name || falsy feed.url) with
    | true => simpa [Tuifeed.fetchFeedWithRetry, hb] using hk
    | false =>
      have hcases := fetchLoop_store_cases attempts
        (feed.name.getD "" ++ ":" ++ feed.url.getD "") RETRY_ATTEMPTS 0 cache
      have hstore : (Tuifeed.fetchFeedWithRetry feed cache attempts now).store =
          (Tuifeed.fetchLoop attempts (feed.name.getD "" ++ ":" ++ feed.url.getD "")
            cache RETRY_ATTEMPTS 0).store := by
        simp only [Tuifeed.fetchFeedWithRetry, hb]
        cases (Tuifeed.fetchLoop attempts
            (feed.name.getD "" ++ ":" ++ feed.url.getD "")
            cache RETRY_ATTEMPTS 0).exit <;> simp
      rw [hstore]
      rcases hcases with hsame | ⟨v, hins⟩
      · rw [hsame]; exact hk
      · rw [hins, storeLookup_insert]
        by_cases hkk : k = feed.name.getD "" ++ ":" ++ feed.url.getD ""
        · simp [hkk]
        · simpa [hkk] using hk

/-- C10 witness: a stored validator entry survives both a header-less
success (store unchanged) and an arbitrary trace (entry still present). -/
theorem c10_validator_persistence_witness :
    (Tuifeed.fetchFeedWithRetry ⟨some "A", some "http://a"⟩
        [("A:http://a", ⟨some "e", none⟩)]
        (fun _ => .success none none (.ok false [])) 0).store
      = [("A:http://a", ⟨some "e", none⟩)]
    ∧ (storeLookup (Tuifeed.fetchFeedWithRetry ⟨some "A", some "http://a"⟩
        [("A:http://a", ⟨some "e", none⟩)]
        (fun _ => .success (some "e2") none (.ok false [])) 0).store
          "A:http://a").isSome = true :=
  ⟨(c10_validator_persistence ⟨some "A", some "http://a"⟩
      [("A:http://a", ⟨some "e", none⟩)]
      (fun _ => .success none none (.ok false [])) 0).1 0 (.ok false [])
      (by decide) (fun i hi => absurd hi (Nat.not_lt_zero i)) rfl,
   (c10_validator_persistence ⟨some "A", some "http://a"⟩
      [("A:http://a", ⟨some "e", none⟩)]
      (fun _ => .success (some "e2") none (.ok false [])) 0).2
      "A:http://a" (by decide)⟩
